import Mathlib

/-!
Verification of the data loading and normalization pipelines of the
DataScienceModule repository: the movie-dataset loader
(Exercise 1/Streamlit App/app.py, load_data) and the crime-dataset loader
(Exercise 2/streamlit/app.py, load_data), shallowly embedded as executable
Lean functions, together with theorems about the behaviour the
specification describes.
-/

/-- Single-quote character (code point 39), the quote used by the Python
textual rendering of a list of strings. -/
def squote : Char := Char.ofNat 39

/-- Scan characters up to the next single quote; return the content before the
quote and the remaining characters after it, or none if no quote occurs. -/
def scanQuoted : List Char → Option (List Char × List Char)
  | [] => none
  | c :: rest =>
    if c = squote then some ([], rest)
    else (scanQuoted rest).map (fun p => (c :: p.1, p.2))

/-- Parse the items of a non-empty list-of-quoted-strings literal, positioned
just after the opening bracket.  The fuel bounds the number of items. -/
def evalItems : Nat → List Char → Option (List String)
  | 0, _ => none
  | _ + 1, [] => none
  | fuel + 1, c :: rest =>
    if c = squote then
      match scanQuoted rest with
      | none => none
      | some (content, rest2) =>
        match rest2 with
        | [']'] => some [String.mk content]
        | ',' :: ' ' :: rest3 =>
          (evalItems fuel rest3).map (fun l => String.mk content :: l)
        | _ => none
    else none

/-- Model of the Python eval builtin as the loaders use it: the stored text of
a list-valued cell is the direct textual rendering of a sequence of quoted
strings (e.g. a bracketed, comma separated run of single-quoted names), and
eval succeeds exactly on such renderings, returning the sequence.  Any other
text (unbalanced brackets, stray characters) fails. -/
def evalListLiteral (s : String) : Option (List String) :=
  match s.data with
  | '[' :: rest => if rest = [']'] then some [] else evalItems rest.length rest
  | _ => none

/-- Characters of the Python textual rendering of a list of strings, without
the surrounding brackets. -/
def reprInner : List String → List Char
  | [] => []
  | [x] => squote :: (x.data ++ [squote])
  | x :: y :: ys => squote :: (x.data ++ squote :: ',' :: ' ' :: reprInner (y :: ys))

/-- Python textual rendering of a list of strings, as stored in the delimited
movie files. -/
def pyReprList (l : List String) : String :=
  String.mk ('[' :: (reprInner l ++ [']']))

theorem scanQuoted_append (x tail : List Char) (hx : squote ∉ x) :
    scanQuoted (x ++ squote :: tail) = some (x, tail) := by
  induction x with
  | nil => simp [scanQuoted]
  | cons c cs ih =>
    have hc : c ≠ squote := by
      intro h
      exact hx (h ▸ List.mem_cons_self c cs)
    have hcs : squote ∉ cs := fun h => hx (List.mem_cons_of_mem _ h)
    simp [scanQuoted, hc, ih hcs]

theorem evalItems_repr (l : List String) :
    ∀ fuel : Nat, l ≠ [] → (∀ x ∈ l, squote ∉ x.data) → l.length ≤ fuel →
      evalItems fuel (reprInner l ++ [']']) = some l := by
  induction l with
  | nil => intro fuel h _ _; exact absurd rfl h
  | cons x xs ih =>
    intro fuel _ hgood hfuel
    obtain ⟨f, rfl⟩ : ∃ f, fuel = f + 1 := by
      cases fuel with
      | zero => simp at hfuel
      | succ f => exact ⟨f, rfl⟩
    have hx : squote ∉ x.data := hgood x (List.mem_cons_self _ _)
    cases xs with
    | nil =>
      have harr : reprInner [x] ++ [']'] = squote :: (x.data ++ squote :: [']']) := by
        simp [reprInner]
      rw [harr]
      simp only [evalItems, if_pos rfl]
      rw [scanQuoted_append x.data [']'] hx]
      rfl
    | cons y ys =>
      have harr : reprInner (x :: y :: ys) ++ [']'] =
          squote :: (x.data ++ squote :: ',' :: ' ' :: (reprInner (y :: ys) ++ [']'])) := by
        simp [reprInner]
      rw [harr]
      simp only [evalItems, if_pos rfl]
      rw [scanQuoted_append x.data (',' :: ' ' :: (reprInner (y :: ys) ++ [']'])) hx]
      have hrec := ih f (by simp) (fun z hz => hgood z (List.mem_cons_of_mem _ hz))
        (by simp at hfuel ⊢; omega)
      simp [hrec]

theorem length_le_reprInner (l : List String) : l.length ≤ (reprInner l).length := by
  induction l with
  | nil => simp [reprInner]
  | cons x xs ih =>
    cases xs with
    | nil => simp [reprInner]
    | cons y ys =>
      simp [reprInner] at ih ⊢
      omega

theorem reprInner_cons_head (x : String) (xs : List String) :
    ∃ t, reprInner (x :: xs) = squote :: t := by
  cases xs with
  | nil => exact ⟨_, rfl⟩
  | cons y ys => exact ⟨_, rfl⟩

theorem data_mk (cs : List Char) : (String.mk cs).data = cs := rfl

/-- Decoding is a left inverse of the textual rendering: evaluating the stored
text of a list of quote-free strings recovers exactly that list. -/
theorem evalListLiteral_pyRepr (l : List String) (hgood : ∀ x ∈ l, squote ∉ x.data) :
    evalListLiteral (pyReprList l) = some l := by
  cases l with
  | nil => rfl
  | cons x xs =>
    obtain ⟨t, ht⟩ := reprInner_cons_head x xs
    have hne : reprInner (x :: xs) ++ [']'] ≠ [']'] := by
      rw [ht]
      intro h
      have : squote = ']' := by
        have := congrArg (fun l => l.headI) h
        simpa using this
      exact absurd this (by decide)
    have hfuel : (x :: xs).length ≤ (reprInner (x :: xs) ++ [']']).length := by
      rw [List.length_append]
      exact le_trans (length_le_reprInner _) (Nat.le_add_right _ _)
    simp only [evalListLiteral, pyReprList, data_mk]
    rw [if_neg hne]
    exact evalItems_repr (x :: xs) _ (List.cons_ne_nil x xs) hgood hfuel

theorem pyReprList_ne_empty (l : List String) : pyReprList l ≠ "" := by
  intro h
  have : (pyReprList l).data = ([] : List Char) := by rw [h]
  simp [pyReprList] at this

/-- Decimal digit run to a natural number; none when empty or when a non-digit
occurs. -/
def digitsVal (cs : List Char) : Option Nat :=
  if cs ≠ [] ∧ cs.all Char.isDigit then
    some (cs.foldl (fun a c => a * 10 + (c.toNat - 48)) 0)
  else none

/-- Split a character list at the first dot, when one occurs. -/
def splitDot : List Char → List Char × Option (List Char)
  | [] => ([], none)
  | c :: cs =>
    if c = '.' then ([], some cs)
    else
      let r := splitDot cs
      (c :: r.1, r.2)

/-- Model of the numeric parser used by the tabular library on a non-negative
decimal literal: an integer digit run with an optional fractional part. -/
def parseRatPos (cs : List Char) : Option ℚ :=
  match digitsVal (splitDot cs).1, (splitDot cs).2 with
  | none, _ => none
  | some n, none => some (n : ℚ)
  | some n, some frac =>
    if frac = [] then some (n : ℚ)
    else (digitsVal frac).map (fun m => (n : ℚ) + (m : ℚ) / ((10 : ℚ) ^ frac.length))

/-- Model of the numeric parser used by the tabular library: an optional
leading minus sign followed by a decimal literal. -/
def parseRat (s : String) : Option ℚ :=
  match s.data with
  | [] => none
  | c :: rest =>
    if c = '-' then (parseRatPos rest).map (fun q => -q)
    else parseRatPos (c :: rest)

theorem parseRat_empty : parseRat "" = none := rfl

theorem digitsVal_not_digit_head (c : Char) (cs : List Char) (hc : c.isDigit = false) :
    digitsVal (c :: cs) = none := by
  simp [digitsVal, hc]

theorem parseRatPos_bracket (cs : List Char) : parseRatPos ('[' :: cs) = none := by
  have h1 : (splitDot ('[' :: cs)).1 = '[' :: (splitDot cs).1 := by
    simp [splitDot]
  unfold parseRatPos
  rw [h1, digitsVal_not_digit_head '[' _ (by decide)]

theorem parseRat_pyRepr (l : List String) : parseRat (pyReprList l) = none := by
  simp only [parseRat, pyReprList, data_mk]
  rw [if_neg (by decide)]
  exact parseRatPos_bracket _

/-- Model of the to-numeric coercion followed by the integer cast the crime
loader applies to the hour column: parse as a decimal number, truncate toward
zero (as the C-style integer cast does); unparseable text gives none. -/
def toNumericInt (s : String) : Option Int :=
  (parseRat s).map (fun q => Int.tdiv q.num (q.den : Int))

namespace Movie

/-- A cell value of a loaded movie table: missing value, number, plain text, or
a true sequence of strings (the decoded form of a list-valued cell). -/
inductive MVal where
  | vNull : MVal
  | vNum : ℚ → MVal
  | vStr : String → MVal
  | vList : List String → MVal
deriving DecidableEq

/-- One column of a delimited text file after tokenization: the column name
and the raw text of each cell, in row order.  An empty cell text models a
missing value. -/
structure CsvCol where
  name : String
  cells : List String
deriving DecidableEq

/-- A JSON value as it occurs in the movie records: null, number, string, or
array of strings. -/
inductive JVal where
  | jnull : JVal
  | jnum : ℚ → JVal
  | jstr : String → JVal
  | jarr : List String → JVal
deriving DecidableEq

/-- One column of a JSON array-of-records file, column-major: all records
carry the same keys in the same order, so the parsed data is the list of
columns, each with the values of its key in row order. -/
structure JsonCol where
  name : String
  cells : List JVal
deriving DecidableEq

/-- One column of a loaded tabular dataset. -/
structure Col where
  name : String
  cells : List MVal
deriving DecidableEq

/-- A loaded tabular dataset, as a list of named columns. -/
abbrev Df := List Col

/-- Errors of the movie loader: a parse failure of the delimited or JSON
reader, a decode failure while evaluating a list-valued cell (the eval call
raising on malformed or non-string input), and the index failure of reading
the first cell of an empty column. -/
inductive LoadErr where
  | parseErr : LoadErr
  | decodeErr : LoadErr
  | indexErr : LoadErr
deriving DecidableEq

/-- A cell is numeric-or-missing when it is empty or parses as a number; the
delimited reader converts a column to numbers exactly when every cell is. -/
def numericCell (s : String) : Bool := s == "" || (parseRat s).isSome

/-- Column type inference of the delimited reader: a column whose cells are
all numeric-or-missing becomes a numeric column (empty cells become missing
values); otherwise the cells stay text (empty cells still become missing). -/
def infer_cells (cells : List String) : List MVal :=
  if cells.all numericCell then
    cells.map (fun s => match parseRat s with
      | some q => MVal.vNum q
      | none => MVal.vNull)
  else
    cells.map (fun s => if s == "" then MVal.vNull else MVal.vStr s)

/-- Model of the delimited reader pd.read_csv on tokenized content. -/
def pd_read_csv (t : List CsvCol) : Df :=
  t.map (fun c => { name := c.name, cells := infer_cells c.cells })

/-- A parsed JSON value as a dataset cell. -/
def jval_to_mval : JVal → MVal
  | .jnull => .vNull
  | .jnum q => .vNum q
  | .jstr s => .vStr s
  | .jarr l => .vList l

/-- Model of json.load followed by pd.DataFrame on a JSON array of records. -/
def json_to_df (t : List JsonCol) : Df :=
  t.map (fun c => { name := c.name, cells := c.cells.map jval_to_mval })

/-- The three list-valued columns the loader decodes. -/
def list_col_names : List String := ["castList", "directorList", "genreList"]

/-- Apply eval to every cell of a column: a text cell must be a literal
sequence rendering (else eval raises a decode failure), and a non-text cell
makes eval raise as well (modelled as the same decode failure). -/
def decodeCells : List MVal → Except LoadErr (List MVal)
  | [] => .ok []
  | v :: vs =>
    match v with
    | .vStr s =>
      match evalListLiteral s with
      | some l => (decodeCells vs).map (fun rest => MVal.vList l :: rest)
      | none => .error .decodeErr
    | _ => .error .decodeErr

/-- The per-column decode step of the loader: for a column named as one of the
three list-valued columns, inspect its first value (raising an index failure
when the column has no rows, as iloc does); when that first value is plain
text, re-evaluate every cell of the column; otherwise leave the column
unchanged. -/
def decodeStep (c : Col) : Except LoadErr Col :=
  if c.name ∈ list_col_names then
    match c.cells with
    | [] => .error .indexErr
    | v :: _ =>
      match v with
      | .vStr _ => (decodeCells c.cells).map (fun cs => { name := c.name, cells := cs })
      | _ => .ok c
  else .ok c

/-- The decode pass over all columns of the parsed dataset. -/
def decodeCols : Df → Except LoadErr Df
  | [] => .ok []
  | c :: cs =>
    match decodeStep c with
    | .error e => .error e
    | .ok c2 =>
      match decodeCols cs with
      | .error e => .error e
      | .ok cs2 => .ok (c2 :: cs2)

/-- The content of an uploaded movie file, as far as each parser is concerned:
delimited text that is either malformed (none) or tokenizes to columns, or
JSON text that is either malformed (none) or parses to an array of records.
Feeding content of one kind to the parser of the other kind is modelled as a
parse failure. -/
inductive FileContent where
  | csvText : Option (List CsvCol) → FileContent
  | jsonText : Option (List JsonCol) → FileContent
deriving DecidableEq

/-- An uploaded file: a name, used only to select the parser, and content. -/
structure UploadedFile where
  name : String
  content : FileContent

/-- The file-name test of the parser dispatch: does the name end in the
delimited-text suffix .csv? -/
def endsWithCsv (name : String) : Bool :=
  List.isSuffixOf ".csv".data name.data

/-- The parser dispatch of the movie loader: a name ending in .csv goes to the
delimited reader, anything else to the JSON reader; a malformed input makes
the selected reader raise a parse failure. -/
def read_file (f : UploadedFile) : Except LoadErr Df :=
  if endsWithCsv f.name then
    match f.content with
    | .csvText (some t) => .ok (pd_read_csv t)
    | _ => .error .parseErr
  else
    match f.content with
    | .jsonText (some t) => .ok (json_to_df t)
    | _ => .error .parseErr

/-- The movie loader load_data: parse the file by its name suffix, then decode
the three list-valued columns.  Every failure propagates as an error; nothing
is caught. -/
def load_data (f : UploadedFile) : Except LoadErr Df :=
  match read_file f with
  | .error e => .error e
  | .ok df => decodeCols df

theorem decodeCells_ok (vs vs2 : List MVal) (h : decodeCells vs = .ok vs2) :
    vs2.length = vs.length ∧ ∀ v ∈ vs2, ∃ l, v = MVal.vList l := by
  induction vs generalizing vs2 with
  | nil =>
    simp [decodeCells] at h
    subst h
    simp
  | cons v vs ih =>
    match v with
    | .vNull => simp [decodeCells] at h
    | .vNum q => simp [decodeCells] at h
    | .vList l => simp [decodeCells] at h
    | .vStr s =>
      simp only [decodeCells] at h
      cases hev : evalListLiteral s with
      | none => rw [hev] at h; simp at h
      | some l =>
        rw [hev] at h
        cases hrec : decodeCells vs with
        | error e => rw [hrec] at h; simp [Except.map] at h
        | ok rest =>
          rw [hrec] at h
          simp [Except.map] at h
          obtain ⟨hlen, hall⟩ := ih rest hrec
          subst h
          constructor
          · simp [hlen]
          · intro w hw
            rcases List.mem_cons.mp hw with h1 | h2
            · exact ⟨l, h1⟩
            · exact hall w h2

theorem decodeCells_error (vs : List MVal) :
    ∀ e : LoadErr, decodeCells vs = .error e → e = .decodeErr := by
  induction vs with
  | nil => intro e h; simp [decodeCells] at h
  | cons v vs ih =>
    intro e h
    match v with
    | .vNull =>
      simp [decodeCells] at h
      exact h.symm
    | .vNum q =>
      simp [decodeCells] at h
      exact h.symm
    | .vList l =>
      simp [decodeCells] at h
      exact h.symm
    | .vStr s =>
      simp only [decodeCells] at h
      cases hev : evalListLiteral s with
      | none =>
        rw [hev] at h
        simp at h
        exact h.symm
      | some l =>
        rw [hev] at h
        cases hrec : decodeCells vs with
        | error e2 =>
          rw [hrec] at h
          simp [Except.map] at h
          subst h
          exact ih _ hrec
        | ok rest =>
          rw [hrec] at h
          simp [Except.map] at h

end Movie

namespace Movie

theorem decodeStep_ok (c c2 : Col) (h : decodeStep c = .ok c2) :
    c2.name = c.name ∧ c2.cells.length = c.cells.length ∧
      (c.name ∈ list_col_names → (∃ s r, c.cells = MVal.vStr s :: r) →
        ∀ v ∈ c2.cells, ∃ l, v = MVal.vList l) := by
  obtain ⟨nm, cells⟩ := c
  unfold decodeStep at h
  simp only at h
  by_cases hn : nm ∈ list_col_names
  · rw [if_pos hn] at h
    cases cells with
    | nil => simp at h
    | cons v vs =>
      cases v with
      | vStr s =>
        cases hdc : decodeCells (MVal.vStr s :: vs) with
        | error e =>
          rw [hdc] at h
          simp [Except.map] at h
        | ok cs =>
          rw [hdc] at h
          simp [Except.map] at h
          obtain ⟨hlen, hall⟩ := decodeCells_ok _ _ hdc
          subst h
          refine ⟨rfl, by simpa using hlen, ?_⟩
          intro _ _ v hv
          exact hall v hv
      | vNull =>
        simp at h
        subst h
        refine ⟨rfl, rfl, ?_⟩
        intro _ hex
        obtain ⟨s, r, hsr⟩ := hex
        simp at hsr
      | vNum q =>
        simp at h
        subst h
        refine ⟨rfl, rfl, ?_⟩
        intro _ hex
        obtain ⟨s, r, hsr⟩ := hex
        simp at hsr
      | vList l =>
        simp at h
        subst h
        refine ⟨rfl, rfl, ?_⟩
        intro _ hex
        obtain ⟨s, r, hsr⟩ := hex
        simp at hsr
  · rw [if_neg hn] at h
    simp at h
    subst h
    exact ⟨rfl, rfl, fun hmem => absurd hmem hn⟩

theorem decodeCols_ok (cols cols2 : Df) (h : decodeCols cols = .ok cols2) :
    List.Forall₂ (fun c c2 => c2.name = c.name ∧ c2.cells.length = c.cells.length ∧
      (c.name ∈ list_col_names → (∃ s r, c.cells = MVal.vStr s :: r) →
        ∀ v ∈ c2.cells, ∃ l, v = MVal.vList l)) cols cols2 := by
  induction cols generalizing cols2 with
  | nil =>
    simp [decodeCols] at h
    subst h
    exact List.Forall₂.nil
  | cons c cs ih =>
    simp only [decodeCols] at h
    cases hs : decodeStep c with
    | error e =>
      rw [hs] at h
      simp at h
    | ok c2 =>
      rw [hs] at h
      cases hr : decodeCols cs with
      | error e =>
        rw [hr] at h
        simp at h
      | ok cs2 =>
        rw [hr] at h
        simp at h
        subst h
        exact List.Forall₂.cons (decodeStep_ok c c2 hs) (ih cs2 hr)

theorem decodeStep_error (c : Col) (e : LoadErr) (h : decodeStep c = .error e) :
    e = .decodeErr ∨ (e = .indexErr ∧ c.cells = []) := by
  obtain ⟨nm, cells⟩ := c
  unfold decodeStep at h
  simp only at h
  by_cases hn : nm ∈ list_col_names
  · rw [if_pos hn] at h
    cases cells with
    | nil =>
      simp at h
      exact Or.inr ⟨h.symm, rfl⟩
    | cons v vs =>
      cases v with
      | vStr s =>
        cases hdc : decodeCells (MVal.vStr s :: vs) with
        | error e2 =>
          rw [hdc] at h
          simp [Except.map] at h
          subst h
          exact Or.inl (decodeCells_error _ _ hdc)
        | ok cs =>
          rw [hdc] at h
          simp [Except.map] at h
      | vNull => simp at h
      | vNum q => simp at h
      | vList l => simp at h
  · rw [if_neg hn] at h
    simp at h

theorem decodeCols_not_ok_of_mem (c : Col) (e : LoadErr) (he : decodeStep c = .error e) :
    ∀ cols : Df, c ∈ cols → ∀ cols2, decodeCols cols ≠ .ok cols2 := by
  intro cols
  induction cols with
  | nil =>
    intro hmem
    simp at hmem
  | cons d ds ih =>
    intro hmem cols2 hok
    simp only [decodeCols] at hok
    cases hs : decodeStep d with
    | error e2 =>
      rw [hs] at hok
      simp at hok
    | ok d2 =>
      rw [hs] at hok
      cases hr : decodeCols ds with
      | error e2 =>
        rw [hr] at hok
        simp at hok
      | ok ds2 =>
        rcases List.mem_cons.mp hmem with h1 | h2
        · subst h1
          rw [hs] at he
          simp at he
        · exact ih h2 ds2 hr

theorem decodeCols_ok_or_decodeErr (cols : Df)
    (hne : ∀ c ∈ cols, c.name ∈ list_col_names → c.cells ≠ []) :
    (∃ cols2, decodeCols cols = .ok cols2) ∨ decodeCols cols = .error .decodeErr := by
  induction cols with
  | nil => exact Or.inl ⟨[], rfl⟩
  | cons c cs ih =>
    have hc := hne c (List.mem_cons_self _ _)
    have ihr := ih (fun d hd => hne d (List.mem_cons_of_mem _ hd))
    cases hs : decodeStep c with
    | error e =>
      rcases decodeStep_error c e hs with h1 | ⟨h1, h2⟩
      · subst h1
        exact Or.inr (by simp [decodeCols, hs])
      · exact absurd h2 (hc (by
          by_contra hn
          rw [decodeStep, if_neg hn] at hs
          simp at hs))
    | ok c2 =>
      rcases ihr with ⟨cs2, hcs2⟩ | herr
      · exact Or.inl ⟨c2 :: cs2, by simp [decodeCols, hs, hcs2]⟩
      · exact Or.inr (by simp [decodeCols, hs, herr])

theorem decodeCells_error_of_bad (vs : List MVal) (s2 : String)
    (hmem : MVal.vStr s2 ∈ vs) (hev : evalListLiteral s2 = none) :
    ∃ e, decodeCells vs = .error e := by
  induction vs with
  | nil => simp at hmem
  | cons v vs ih =>
    rcases List.mem_cons.mp hmem with h1 | h2
    · exact ⟨.decodeErr, by simp [decodeCells, ← h1, hev]⟩
    · cases v with
      | vStr s =>
        cases hev2 : evalListLiteral s with
        | none => exact ⟨.decodeErr, by simp [decodeCells, hev2]⟩
        | some l =>
          obtain ⟨e, he⟩ := ih h2
          exact ⟨e, by simp [decodeCells, hev2, he, Except.map]⟩
      | vNull => exact ⟨.decodeErr, by simp [decodeCells]⟩
      | vNum q => exact ⟨.decodeErr, by simp [decodeCells]⟩
      | vList l => exact ⟨.decodeErr, by simp [decodeCells]⟩

theorem decodeStep_error_of_bad (c : Col) (hn : c.name ∈ list_col_names)
    (hfirst : ∃ s r, c.cells = MVal.vStr s :: r)
    (hbad : ∃ s2, MVal.vStr s2 ∈ c.cells ∧ evalListLiteral s2 = none) :
    ∃ e, decodeStep c = .error e := by
  obtain ⟨s, r, hc⟩ := hfirst
  obtain ⟨s2, hmem, hev⟩ := hbad
  obtain ⟨e, he⟩ := decodeCells_error_of_bad c.cells s2 hmem hev
  refine ⟨e, ?_⟩
  rw [decodeStep, if_pos hn, hc]
  rw [hc] at he
  simp [he, Except.map]

end Movie

/-- Map a fallible function over a list, failing when any element fails (the
Option-monad traversal, written out for proof transparency). -/
def mapMOpt {α β : Type} (f : α → Option β) : List α → Option (List β)
  | [] => some []
  | a :: as =>
    match f a with
    | none => none
    | some b => (mapMOpt f as).map (fun bs => b :: bs)

theorem mapMOpt_mem {α β : Type} (f : α → Option β) (l : List α) (l2 : List β)
    (h : mapMOpt f l = some l2) : ∀ b ∈ l2, ∃ a ∈ l, f a = some b := by
  induction l generalizing l2 with
  | nil =>
    simp [mapMOpt] at h
    subst h
    simp
  | cons a as ih =>
    simp only [mapMOpt] at h
    cases hf : f a with
    | none =>
      rw [hf] at h
      simp at h
    | some b0 =>
      rw [hf] at h
      cases hrec : mapMOpt f as with
      | none =>
        rw [hrec] at h
        simp at h
      | some bs =>
        rw [hrec] at h
        simp at h
        subst h
        intro b hb
        rcases List.mem_cons.mp hb with h1 | h2
        · exact ⟨a, List.mem_cons_self _ _, by rw [h1]; exact hf⟩
        · obtain ⟨a2, ha2, hfa2⟩ := ih bs hrec b h2
          exact ⟨a2, List.mem_cons_of_mem _ ha2, hfa2⟩

namespace Crime

/-- A parsed timestamp, as the date parser of the tabular library produces for
the OCCURRED_ON_DATE column. -/
structure Timestamp where
  year : Nat
  month : Nat
  day : Nat
  hour : Nat
  minute : Nat
  second : Nat
deriving DecidableEq

/-- Two decimal digit characters to a number. -/
def digit2 (a b : Char) : Option Nat :=
  if a.isDigit ∧ b.isDigit then some ((a.toNat - 48) * 10 + (b.toNat - 48))
  else none

/-- Four decimal digit characters to a number. -/
def digit4 (a b c d : Char) : Option Nat :=
  if a.isDigit ∧ b.isDigit ∧ c.isDigit ∧ d.isDigit then
    some ((a.toNat - 48) * 1000 + (b.toNat - 48) * 100 + (c.toNat - 48) * 10 + (d.toNat - 48))
  else none

/-- Build a timestamp, validating the field ranges as the date parser does. -/
def mkTimestamp (y mo d h mi se : Nat) : Option Timestamp :=
  if 1 ≤ mo ∧ mo ≤ 12 ∧ 1 ≤ d ∧ d ≤ 31 ∧ h ≤ 23 ∧ mi ≤ 59 ∧ se ≤ 59 then
    some { year := y, month := mo, day := d, hour := h, minute := mi, second := se }
  else none

/-- Model of the timestamp parser: a date in year-month-day form, optionally
followed by a space or a T separator and an hour:minute:second time of day
(absent time parts default to zero). -/
def parseTimestamp (s : String) : Option Timestamp :=
  match s.data with
  | [y1, y2, y3, y4, '-', m1, m2, '-', d1, d2] =>
    match digit4 y1 y2 y3 y4, digit2 m1 m2, digit2 d1 d2 with
    | some y, some mo, some d => mkTimestamp y mo d 0 0 0
    | _, _, _ => none
  | [y1, y2, y3, y4, '-', m1, m2, '-', d1, d2, sep, h1, h2, ':', n1, n2, ':', s1, s2] =>
    if sep = ' ' ∨ sep = 'T' then
      match digit4 y1 y2 y3 y4, digit2 m1 m2, digit2 d1 d2,
          digit2 h1 h2, digit2 n1 n2, digit2 s1 s2 with
      | some y, some mo, some d, some h, some n, some se => mkTimestamp y mo d h n se
      | _, _, _, _, _, _ => none
    else none
  | _ => none

theorem mkTimestamp_hour (y mo d h mi se : Nat) (ts : Timestamp)
    (heq : mkTimestamp y mo d h mi se = some ts) : ts.hour ≤ 23 := by
  unfold mkTimestamp at heq
  split at heq
  · rename_i hcond
    simp at heq
    subst heq
    exact hcond.2.2.2.2.1
  · simp at heq

theorem parseTimestamp_hour_le (s : String) (ts : Timestamp)
    (h : parseTimestamp s = some ts) : ts.hour ≤ 23 := by
  unfold parseTimestamp at h
  split at h
  · split at h
    · exact mkTimestamp_hour _ _ _ _ _ _ _ h
    · simp at h
  · split at h
    · split at h
      · exact mkTimestamp_hour _ _ _ _ _ _ _ h
      · simp at h
    · simp at h
  · simp at h

/-- One row of the crime CSV as the tabular reader delivers it: text cells may
be missing (none); the latitude and longitude columns are numeric, with
missing cells as none.  A field of a column the file does not contain is
ignored (the presence flags of the file structure govern). -/
structure RawCrimeRow where
  OCCURRED_ON_DATE : Option String
  DISTRICT : Option String
  OFFENSE_CODE_GROUP : Option String
  UCR_PART : Option String
  DAY_OF_WEEK : Option String
  SHOOTING : Option String
  HOUR : Option String
  Lat : Option ℚ
  Long : Option ℚ
  OFFENSE_DESCRIPTION : Option String
deriving DecidableEq

/-- A crime CSV file: which optional columns are present, and the rows.
OCCURRED_ON_DATE is the required date column; Lat and Long are the coordinate
columns the cleaning step indexes. -/
structure RawCrimeCsv where
  hasDate : Bool
  hasShooting : Bool
  hasHour : Bool
  hasLat : Bool
  hasLong : Bool
  hasOffenseDescription : Bool
  rows : List RawCrimeRow
deriving DecidableEq

/-- One record of the cleaned crime dataset the loader returns. -/
structure CrimeRec where
  OCCURRED_ON_DATE : Timestamp
  DISTRICT : Option String
  OFFENSE_CODE_GROUP : Option String
  UCR_PART : Option String
  DAY_OF_WEEK : Option String
  SHOOTING : String
  Is_Shooting : Nat
  HOUR : Int
  Lat : ℚ
  Long : ℚ
  OFFENSE_DESCRIPTION : Option String
deriving DecidableEq

/-- The categories of the SHOOTING column after the categorical coercion: the
distinct non-missing values that occur in the column.  (Distinctness does not
matter for membership, so the observed values are kept as a list.) -/
def shootingCats (raw : RawCrimeCsv) : List String :=
  raw.rows.filterMap (fun r => r.SHOOTING)

/-- Parse the date cell of one row, keeping the row alongside the timestamp. -/
def parseRow (r : RawCrimeRow) : Option (Timestamp × RawCrimeRow) :=
  match r.OCCURRED_ON_DATE with
  | none => none
  | some s => (parseTimestamp s).map (fun ts => (ts, r))

/-- Model of pd.read_csv with the date column parsed: fails (raising, caught
by the loader) when the date column is absent or a date cell does not parse. -/
def readCrimeCsv (raw : RawCrimeCsv) : Option (List (Timestamp × RawCrimeRow)) :=
  if raw.hasDate then mapMOpt parseRow raw.rows else none

/-- The coordinate cleaning predicate: the row survives dropna on Lat and Long
and then the filter keeping only Lat different from -1 and from 0.  (Only the
latitude is compared against the sentinel values, as in the source.) -/
def coordKeep (r : RawCrimeRow) : Bool :=
  decide (r.Lat ≠ none ∧ r.Long ≠ none ∧ r.Lat ≠ some (-1) ∧ r.Lat ≠ some 0)

/-- Build one cleaned record from a parsed row: normalize the shooting flag
(missing becomes the no category, an absent column is synthesized as no),
derive the numeric shooting indicator, coerce or derive the hour, extract the
coordinates, and default the offense description when the column is absent. -/
def mk_rec (raw : RawCrimeCsv) (p : Timestamp × RawCrimeRow) : CrimeRec :=
  let r := p.2
  let shoot : String := if raw.hasShooting then r.SHOOTING.getD "N" else "N"
  { OCCURRED_ON_DATE := p.1
    DISTRICT := r.DISTRICT
    OFFENSE_CODE_GROUP := r.OFFENSE_CODE_GROUP
    UCR_PART := r.UCR_PART
    DAY_OF_WEEK := r.DAY_OF_WEEK
    SHOOTING := shoot
    Is_Shooting := if shoot = "Y" then 1 else 0
    HOUR := if raw.hasHour then (r.HOUR.bind toNumericInt).getD 0 else (p.1.hour : Int)
    Lat := r.Lat.getD 0
    Long := r.Long.getD 0
    OFFENSE_DESCRIPTION :=
      if raw.hasOffenseDescription then r.OFFENSE_DESCRIPTION else some "Unknown" }

/-- The crime loader load_data: read the CSV with parsed dates, coerce the
categorical columns, normalize the shooting flag (the category addition raises
when the no category is already present, which the enclosing handler turns
into a null result), derive the shooting indicator and the hour, drop rows
with missing coordinates or a sentinel latitude, and default the offense
description.  Any failure yields none. -/
def load_data (raw : RawCrimeCsv) : Option (List CrimeRec) :=
  match readCrimeCsv raw with
  | none => none
  | some prs =>
    if raw.hasShooting = true ∧ "N" ∈ shootingCats raw then none
    else if raw.hasLat = false ∨ raw.hasLong = false then none
    else some ((prs.filter (fun p => coordKeep p.2)).map (mk_rec raw))

/-- What the page renders after the loader runs: the instructional prompt (the
caller halts) or the dashboard over the loaded dataset. -/
inductive AppView where
  | promptForData : AppView
  | dashboard : List CrimeRec → AppView
deriving DecidableEq

/-- The top-level null check of the page: a null loader result halts with the
upload prompt; a dataset proceeds to the dashboard. -/
def main_flow (d : Option (List CrimeRec)) : AppView :=
  match d with
  | none => .promptForData
  | some df => .dashboard df

end Crime

namespace Crime

theorem parseRow_some (r : RawCrimeRow) (p : Timestamp × RawCrimeRow)
    (h : parseRow r = some p) :
    p.2 = r ∧ ∃ s, r.OCCURRED_ON_DATE = some s ∧ parseTimestamp s = some p.1 := by
  unfold parseRow at h
  split at h
  · simp at h
  · rename_i s hd
    cases hp : parseTimestamp s with
    | none =>
      rw [hp] at h
      simp at h
    | some ts =>
      rw [hp] at h
      simp at h
      subst h
      exact ⟨rfl, s, hd, hp⟩

theorem readCrimeCsv_some (raw : RawCrimeCsv) (prs : List (Timestamp × RawCrimeRow))
    (h : readCrimeCsv raw = some prs) :
    raw.hasDate = true ∧ mapMOpt parseRow raw.rows = some prs := by
  unfold readCrimeCsv at h
  by_cases hd : raw.hasDate
  · rw [if_pos hd] at h
    exact ⟨hd, h⟩
  · rw [if_neg hd] at h
    simp at h

theorem load_data_some (raw : RawCrimeCsv) (df : List CrimeRec)
    (h : load_data raw = some df) :
    ∃ prs, readCrimeCsv raw = some prs ∧
      ¬(raw.hasShooting = true ∧ "N" ∈ shootingCats raw) ∧
      ¬(raw.hasLat = false ∨ raw.hasLong = false) ∧
      df = (prs.filter (fun p => coordKeep p.2)).map (mk_rec raw) := by
  unfold load_data at h
  split at h
  · simp at h
  · rename_i prs hr
    by_cases h1 : raw.hasShooting = true ∧ "N" ∈ shootingCats raw
    · rw [if_pos h1] at h
      simp at h
    · rw [if_neg h1] at h
      by_cases h2 : raw.hasLat = false ∨ raw.hasLong = false
      · rw [if_pos h2] at h
        simp at h
      · rw [if_neg h2] at h
        simp at h
        exact ⟨prs, hr, h1, h2, h.symm⟩

theorem mem_load_data (raw : RawCrimeCsv) (df : List CrimeRec) (rec : CrimeRec)
    (h : load_data raw = some df) (hm : rec ∈ df) :
    ∃ ts r s, r ∈ raw.rows ∧ r.OCCURRED_ON_DATE = some s ∧ parseTimestamp s = some ts ∧
      coordKeep r = true ∧ rec = mk_rec raw (ts, r) := by
  obtain ⟨prs, hread, _, _, hdf⟩ := load_data_some raw df h
  obtain ⟨_, hmap⟩ := readCrimeCsv_some raw prs hread
  subst hdf
  obtain ⟨p, hpmem, hrec⟩ := List.mem_map.mp hm
  obtain ⟨hpprs, hkeep⟩ := List.mem_filter.mp hpmem
  obtain ⟨ts0, rp⟩ := p
  obtain ⟨r0, hr0, hfr0⟩ := mapMOpt_mem parseRow raw.rows prs hmap (ts0, rp) hpprs
  obtain ⟨hsnd, s, hds, hts⟩ := parseRow_some r0 (ts0, rp) hfr0
  simp at hsnd
  subst hsnd
  exact ⟨ts0, rp, s, hr0, hds, hts, hkeep, hrec.symm⟩

theorem mapMOpt_parseRow_snd (rows : List RawCrimeRow)
    (prs : List (Timestamp × RawCrimeRow)) (h : mapMOpt parseRow rows = some prs) :
    prs.map (fun p => p.2) = rows := by
  induction rows generalizing prs with
  | nil =>
    simp [mapMOpt] at h
    subst h
    rfl
  | cons r rs ih =>
    simp only [mapMOpt] at h
    cases hf : parseRow r with
    | none =>
      rw [hf] at h
      simp at h
    | some p =>
      rw [hf] at h
      cases hrec : mapMOpt parseRow rs with
      | none =>
        rw [hrec] at h
        simp at h
      | some ps =>
        rw [hrec] at h
        simp at h
        subst h
        have hp2 := (parseRow_some r p hf).1
        simp [hp2, ih ps hrec]

theorem filter_map_snd (l : List (Timestamp × RawCrimeRow)) (g : RawCrimeRow → Bool) :
    (l.filter (fun p => g p.2)).map (fun p => p.2) = (l.map (fun p => p.2)).filter g := by
  induction l with
  | nil => rfl
  | cons p ps ih =>
    by_cases hg : g p.2 = true
    · simp [List.filter_cons, hg, ih]
    · simp only [List.map_cons, List.filter_cons, hg]
      simp at hg
      simp [hg, ih]

theorem load_data_length (raw : RawCrimeCsv) (df : List CrimeRec)
    (h : load_data raw = some df) :
    df.length = (raw.rows.filter coordKeep).length := by
  obtain ⟨prs, hread, _, _, hdf⟩ := load_data_some raw df h
  obtain ⟨_, hmap⟩ := readCrimeCsv_some raw prs hread
  subst hdf
  have hsnd := mapMOpt_parseRow_snd raw.rows prs hmap
  calc ((prs.filter (fun p => coordKeep p.2)).map (mk_rec raw)).length
      = (prs.filter (fun p => coordKeep p.2)).length := List.length_map _ _
    _ = ((prs.filter (fun p => coordKeep p.2)).map (fun p => p.2)).length :=
        (List.length_map _ _).symm
    _ = ((prs.map (fun p => p.2)).filter coordKeep).length := by
        rw [filter_map_snd]
    _ = (raw.rows.filter coordKeep).length := by rw [hsnd]

end Crime

namespace Crime

/-- A well-formed sample row of a crime CSV: parseable date, valid
coordinates, no shooting value recorded. -/
def sampleRow : RawCrimeRow :=
  { OCCURRED_ON_DATE := some "2019-06-01 10:30:00"
    DISTRICT := some "A1"
    OFFENSE_CODE_GROUP := some "Larceny"
    UCR_PART := some "Part One"
    DAY_OF_WEEK := some "Saturday"
    SHOOTING := none
    HOUR := none
    Lat := some 42
    Long := some (-71)
    OFFENSE_DESCRIPTION := some "LARCENY" }

/-- A well-formed sample crime CSV around sampleRow. -/
def sampleCsv : RawCrimeCsv :=
  { hasDate := true
    hasShooting := true
    hasHour := false
    hasLat := true
    hasLong := true
    hasOffenseDescription := true
    rows := [sampleRow] }

/-- Input refuting claim C1 as stated: a parseable CSV whose SHOOTING column
contains the value N in some row. -/
def c1cex_raw : RawCrimeCsv :=
  { sampleCsv with rows := [{ sampleRow with SHOOTING := some "N" }] }

/-- Claim C1 (counterexample): the claim says that whenever the SHOOTING
column is present the loader returns a dataset with missing flags replaced by
N, the N category being added to the allowed set if not already present.  On
this parseable CSV, whose SHOOTING column already contains the value N, the
category addition raises (the new category is an old one), the handler turns
that into a null result, and no dataset is returned at all. -/
theorem C1_counterexample : load_data c1cex_raw = none := by decide

/-- Claim C1 (amended): on every successful load, the N category was not
among the observed shooting values (otherwise the category addition fails and
the loader returns null); every record's normalized flag is the source flag
with missing values replaced by N when the column is present, and uniformly N
when the column is absent; and the numeric indicator is 1 exactly when the
normalized flag is Y, else 0. -/
theorem C1_shooting_normalization (raw : RawCrimeCsv) (df : List CrimeRec)
    (h : load_data raw = some df) :
    (raw.hasShooting = true → "N" ∉ shootingCats raw) ∧
    (∀ rec ∈ df, ∃ r ∈ raw.rows,
      rec.SHOOTING = (if raw.hasShooting then r.SHOOTING.getD "N" else "N")) ∧
    (∀ rec ∈ df, rec.Is_Shooting = if rec.SHOOTING = "Y" then 1 else 0) := by
  obtain ⟨prs, hread, h1, h2, hdf⟩ := load_data_some raw df h
  refine ⟨?_, ?_, ?_⟩
  · intro hs hmem
    exact h1 ⟨hs, hmem⟩
  · intro rec hrec
    obtain ⟨ts, r, s, hr, _, _, _, hmk⟩ := mem_load_data raw df rec h hrec
    exact ⟨r, hr, by rw [hmk]; rfl⟩
  · intro rec hrec
    obtain ⟨ts, r, s, hr, _, _, _, hmk⟩ := mem_load_data raw df rec h hrec
    rw [hmk]
    rfl

/-- Input for the C1 witness: SHOOTING present, one missing flag and one Y. -/
def c1w_raw : RawCrimeCsv :=
  { sampleCsv with rows :=
      [sampleRow, { sampleRow with SHOOTING := some "Y" }] }

/-- The dataset the loader returns on c1w_raw. -/
def c1w_df : List CrimeRec :=
  [{ OCCURRED_ON_DATE := { year := 2019, month := 6, day := 1, hour := 10, minute := 30, second := 0 }
     DISTRICT := some "A1"
     OFFENSE_CODE_GROUP := some "Larceny"
     UCR_PART := some "Part One"
     DAY_OF_WEEK := some "Saturday"
     SHOOTING := "N"
     Is_Shooting := 0
     HOUR := 10
     Lat := 42
     Long := -71
     OFFENSE_DESCRIPTION := some "LARCENY" },
   { OCCURRED_ON_DATE := { year := 2019, month := 6, day := 1, hour := 10, minute := 30, second := 0 }
     DISTRICT := some "A1"
     OFFENSE_CODE_GROUP := some "Larceny"
     UCR_PART := some "Part One"
     DAY_OF_WEEK := some "Saturday"
     SHOOTING := "Y"
     Is_Shooting := 1
     HOUR := 10
     Lat := 42
     Long := -71
     OFFENSE_DESCRIPTION := some "LARCENY" }]

/-- Witness for the amended claim C1 at a concrete input: a missing flag
normalizes to N with indicator 0, a Y flag keeps indicator 1. -/
theorem C1_witness :
    (c1w_raw.hasShooting = true → "N" ∉ shootingCats c1w_raw) ∧
    (∀ rec ∈ c1w_df, ∃ r ∈ c1w_raw.rows,
      rec.SHOOTING = (if c1w_raw.hasShooting then r.SHOOTING.getD "N" else "N")) ∧
    (∀ rec ∈ c1w_df, rec.Is_Shooting = if rec.SHOOTING = "Y" then 1 else 0) :=
  C1_shooting_normalization c1w_raw c1w_df (by decide)

/-- Claim C2 (confirmed): every failure of the read or cleaning steps (the
named conditions are exactly the failure points of the pipeline: a missing
date column, the category addition raising because N is an observed value,
and the coordinate cleaning raising because a coordinate column is absent)
yields a null result rather than an error, and the calling flow maps a null
result to the halting prompt and only a dataset to the dashboard. -/
theorem C2_fail_soft (raw : RawCrimeCsv) :
    (raw.hasDate = false → load_data raw = none) ∧
    (raw.hasShooting = true → "N" ∈ shootingCats raw → load_data raw = none) ∧
    (raw.hasLat = false ∨ raw.hasLong = false → load_data raw = none) ∧
    main_flow none = AppView.promptForData ∧
    (∀ df, main_flow (some df) = AppView.dashboard df) := by
  refine ⟨?_, ?_, ?_, rfl, fun df => rfl⟩
  · intro hd
    have hread : readCrimeCsv raw = none := by
      unfold readCrimeCsv
      rw [if_neg (by simp [hd])]
    simp [load_data, hread]
  · intro hs hn
    cases hr : readCrimeCsv raw with
    | none => simp [load_data, hr]
    | some prs =>
      simp only [load_data, hr]
      rw [if_pos ⟨hs, hn⟩]
  · intro h2
    cases hr : readCrimeCsv raw with
    | none => simp [load_data, hr]
    | some prs =>
      simp only [load_data, hr]
      by_cases h1 : raw.hasShooting = true ∧ "N" ∈ shootingCats raw
      · rw [if_pos h1]
      · rw [if_neg h1, if_pos h2]

/-- Input for the C2 witness: a CSV without the required date column. -/
def c2w_raw : RawCrimeCsv :=
  { sampleCsv with hasDate := false }

/-- Witness for claim C2 at a concrete input: a file missing the date column
loads to null and the flow halts with the prompt. -/
theorem C2_witness :
    load_data c2w_raw = none ∧ main_flow (load_data c2w_raw) = AppView.promptForData := by
  have h := (C2_fail_soft c2w_raw).1 rfl
  refine ⟨h, ?_⟩
  rw [h]
  rfl

/-- Claim C3 (confirmed): on every successful load the output has exactly one
record per input row with both coordinates present and latitude different
from the 0 and -1 sentinels — rows missing a coordinate or carrying a
sentinel latitude are permanently excluded — and no retained record has a
sentinel latitude. -/
theorem C3_coordinate_filtering (raw : RawCrimeCsv) (df : List CrimeRec)
    (h : load_data raw = some df) :
    df.length = (raw.rows.filter coordKeep).length ∧
    ∀ rec ∈ df, rec.Lat ≠ 0 ∧ rec.Lat ≠ -1 := by
  refine ⟨load_data_length raw df h, ?_⟩
  intro rec hrec
  obtain ⟨ts, r, s, hr, _, _, hkeep, hmk⟩ := mem_load_data raw df rec h hrec
  obtain ⟨hlat, hlong, hs1, hs0⟩ := of_decide_eq_true hkeep
  cases hla : r.Lat with
  | none => exact absurd hla hlat
  | some la =>
    have hrecLat : rec.Lat = la := by
      rw [hmk]
      simp [mk_rec, hla]
    constructor
    · rw [hrecLat]
      intro h0
      exact hs0 (by rw [hla, h0])
    · rw [hrecLat]
      intro h1
      exact hs1 (by rw [hla, h1])

/-- Input for the C3 witness: one valid row, one row with a missing
longitude, one row with the sentinel latitude 0. -/
def c3w_raw : RawCrimeCsv :=
  { sampleCsv with rows :=
      [sampleRow,
       { sampleRow with Long := none },
       { sampleRow with Lat := some 0 }] }

/-- The dataset the loader returns on c3w_raw: only the valid row. -/
def c3w_df : List CrimeRec :=
  [{ OCCURRED_ON_DATE := { year := 2019, month := 6, day := 1, hour := 10, minute := 30, second := 0 }
     DISTRICT := some "A1"
     OFFENSE_CODE_GROUP := some "Larceny"
     UCR_PART := some "Part One"
     DAY_OF_WEEK := some "Saturday"
     SHOOTING := "N"
     Is_Shooting := 0
     HOUR := 10
     Lat := 42
     Long := -71
     OFFENSE_DESCRIPTION := some "LARCENY" }]

/-- Witness for claim C3 at a concrete input. -/
theorem C3_witness :
    c3w_df.length = (c3w_raw.rows.filter coordKeep).length ∧
    ∀ rec ∈ c3w_df, rec.Lat ≠ 0 ∧ rec.Lat ≠ -1 :=
  C3_coordinate_filtering c3w_raw c3w_df (by decide)

/-- Input refuting claim C4 as stated: a row with a valid latitude and the
sentinel longitude 0. -/
def c4cex_raw : RawCrimeCsv :=
  { sampleCsv with rows := [{ sampleRow with Long := some 0 }] }

/-- The record the loader retains for c4cex_raw, carrying longitude 0. -/
def c4cex_rec : CrimeRec :=
  { OCCURRED_ON_DATE := { year := 2019, month := 6, day := 1, hour := 10, minute := 30, second := 0 }
    DISTRICT := some "A1"
    OFFENSE_CODE_GROUP := some "Larceny"
    UCR_PART := some "Part One"
    DAY_OF_WEEK := some "Saturday"
    SHOOTING := "N"
    Is_Shooting := 0
    HOUR := 10
    Lat := 42
    Long := 0
    OFFENSE_DESCRIPTION := some "LARCENY" }

/-- Claim C4 (counterexample): the claim says no retained record has a
coordinate equal to a sentinel placeholder (0 or -1).  The loader only
compares the latitude against the sentinels, so this input is retained with
longitude 0. -/
theorem C4_counterexample :
    load_data c4cex_raw = some [c4cex_rec] ∧ c4cex_rec.Long = 0 :=
  ⟨by decide, rfl⟩

/-- Claim C4 (amended): every retained record originates from a row with both
coordinate cells present (non-null), and its latitude is neither 0 nor -1;
the longitude is not compared against the sentinels. -/
theorem C4_coordinate_invariant (raw : RawCrimeCsv) (df : List CrimeRec)
    (h : load_data raw = some df) :
    ∀ rec ∈ df, rec.Lat ≠ 0 ∧ rec.Lat ≠ -1 ∧
      ∃ r ∈ raw.rows, r.Lat = some rec.Lat ∧ r.Long = some rec.Long := by
  intro rec hrec
  obtain ⟨ts, r, s, hr, _, _, hkeep, hmk⟩ := mem_load_data raw df rec h hrec
  obtain ⟨hlat, hlong, hs1, hs0⟩ := of_decide_eq_true hkeep
  cases hla : r.Lat with
  | none => exact absurd hla hlat
  | some la =>
    cases hlo : r.Long with
    | none => exact absurd hlo hlong
    | some lo =>
      have hrecLat : rec.Lat = la := by
        rw [hmk]
        simp [mk_rec, hla]
      have hrecLong : rec.Long = lo := by
        rw [hmk]
        simp [mk_rec, hlo]
      refine ⟨?_, ?_, r, hr, ?_, ?_⟩
      · rw [hrecLat]
        intro h0
        exact hs0 (by rw [hla, h0])
      · rw [hrecLat]
        intro h1
        exact hs1 (by rw [hla, h1])
      · rw [hrecLat, hla]
      · rw [hrecLong, hlo]

/-- Input for the C4 witness. -/
def c4w_raw : RawCrimeCsv :=
  { sampleCsv with rows := [sampleRow, { sampleRow with Lat := some (-1) }] }

/-- The single record the loader retains for c4w_raw. -/
def c4w_rec : CrimeRec :=
  { OCCURRED_ON_DATE := { year := 2019, month := 6, day := 1, hour := 10, minute := 30, second := 0 }
    DISTRICT := some "A1"
    OFFENSE_CODE_GROUP := some "Larceny"
    UCR_PART := some "Part One"
    DAY_OF_WEEK := some "Saturday"
    SHOOTING := "N"
    Is_Shooting := 0
    HOUR := 10
    Lat := 42
    Long := -71
    OFFENSE_DESCRIPTION := some "LARCENY" }

/-- Witness for the amended claim C4 at a concrete input: the one retained
record of c4w_raw (the sentinel-latitude row is excluded). -/
theorem C4_witness :
    c4w_rec.Lat ≠ 0 ∧ c4w_rec.Lat ≠ -1 ∧
      ∃ r ∈ c4w_raw.rows, r.Lat = some c4w_rec.Lat ∧ r.Long = some c4w_rec.Long :=
  C4_coordinate_invariant c4w_raw [c4w_rec] (by decide) c4w_rec (by decide)

end Crime

namespace Crime

/-- Claim C8 (confirmed): when the hour column is present, every retained
record's hour is the numeric coercion of some input row's hour cell, with
missing or unparseable cells becoming 0; when it is absent, every retained
record's hour is the hour component of that record's own timestamp. -/
theorem C8_hour_derivation (raw : RawCrimeCsv) (df : List CrimeRec)
    (h : load_data raw = some df) :
    (raw.hasHour = true → ∀ rec ∈ df, ∃ r ∈ raw.rows,
      rec.HOUR = (r.HOUR.bind toNumericInt).getD 0) ∧
    (raw.hasHour = false → ∀ rec ∈ df, rec.HOUR = (rec.OCCURRED_ON_DATE.hour : Int)) := by
  constructor
  · intro hh rec hrec
    obtain ⟨ts, r, s, hr, _, _, _, hmk⟩ := mem_load_data raw df rec h hrec
    refine ⟨r, hr, ?_⟩
    rw [hmk]
    simp [mk_rec, hh]
  · intro hh rec hrec
    obtain ⟨ts, r, s, hr, _, _, _, hmk⟩ := mem_load_data raw df rec h hrec
    rw [hmk]
    simp [mk_rec, hh]

/-- Input for the C8 witness: no hour column, timestamp 2024-03-01T14:30:00. -/
def c8w_raw : RawCrimeCsv :=
  { sampleCsv with
      hasHour := false
      rows := [{ sampleRow with OCCURRED_ON_DATE := some "2024-03-01T14:30:00" }] }

/-- The record the loader returns on c8w_raw: hour 14, from the timestamp. -/
def c8w_rec : CrimeRec :=
  { OCCURRED_ON_DATE := { year := 2024, month := 3, day := 1, hour := 14, minute := 30, second := 0 }
    DISTRICT := some "A1"
    OFFENSE_CODE_GROUP := some "Larceny"
    UCR_PART := some "Part One"
    DAY_OF_WEEK := some "Saturday"
    SHOOTING := "N"
    Is_Shooting := 0
    HOUR := 14
    Lat := 42
    Long := -71
    OFFENSE_DESCRIPTION := some "LARCENY" }

/-- Witness for claim C8 at the concrete input of the claim: a record
timestamped 2024-03-01T14:30:00 gets hour 14 when the hour column is absent. -/
theorem C8_witness :
    load_data c8w_raw = some [c8w_rec] ∧ c8w_rec.HOUR = 14 := by
  have h : load_data c8w_raw = some [c8w_rec] := by decide
  have h2 := (C8_hour_derivation c8w_raw [c8w_rec] h).2 rfl c8w_rec (by simp)
  refine ⟨h, ?_⟩
  rw [h2]
  rfl

/-- Input refuting claim C9 as stated: an hour column containing 99. -/
def c9cex_raw : RawCrimeCsv :=
  { sampleCsv with
      hasHour := true
      rows := [{ sampleRow with HOUR := some "99" }] }

/-- The record the loader retains for c9cex_raw: its hour is 99. -/
def c9cex_rec : CrimeRec :=
  { OCCURRED_ON_DATE := { year := 2019, month := 6, day := 1, hour := 10, minute := 30, second := 0 }
    DISTRICT := some "A1"
    OFFENSE_CODE_GROUP := some "Larceny"
    UCR_PART := some "Part One"
    DAY_OF_WEEK := some "Saturday"
    SHOOTING := "N"
    Is_Shooting := 0
    HOUR := 99
    Lat := 42
    Long := -71
    OFFENSE_DESCRIPTION := some "LARCENY" }

/-- Claim C9 (counterexample): the claim says every retained record's hour
lies between 0 and 23.  The loader only coerces the hour column to integers
without any range check, so an input hour cell 99 is retained as hour 99. -/
theorem C9_counterexample :
    load_data c9cex_raw = some [c9cex_rec] ∧ c9cex_rec.HOUR = 99 ∧
      ¬(c9cex_rec.HOUR ≤ 23) :=
  ⟨by decide, rfl, by decide⟩

/-- Claim C9 (amended): when the hour column is absent the invariant holds:
every retained record's hour, derived from the validated timestamp, is an
integer between 0 and 23; when the column is present, the hour is whatever
integer the coercion produces and need not lie in that range. -/
theorem C9_hour_range (raw : RawCrimeCsv) (df : List CrimeRec)
    (h : load_data raw = some df) (hh : raw.hasHour = false) :
    ∀ rec ∈ df, 0 ≤ rec.HOUR ∧ rec.HOUR ≤ 23 := by
  intro rec hrec
  obtain ⟨ts, r, s, hr, hds, hts, _, hmk⟩ := mem_load_data raw df rec h hrec
  have hle := parseTimestamp_hour_le s ts hts
  have heq : rec.HOUR = (ts.hour : Int) := by
    rw [hmk]
    simp [mk_rec, hh]
  rw [heq]
  exact ⟨Int.natCast_nonneg ts.hour, by exact_mod_cast hle⟩

/-- Input for the C9 witness: an ordinary file without an hour column. -/
def c9w_raw : RawCrimeCsv :=
  { sampleCsv with hasHour := false, rows := [sampleRow] }

/-- The single record the loader returns on c9w_raw. -/
def c9w_rec : CrimeRec :=
  { OCCURRED_ON_DATE := { year := 2019, month := 6, day := 1, hour := 10, minute := 30, second := 0 }
    DISTRICT := some "A1"
    OFFENSE_CODE_GROUP := some "Larceny"
    UCR_PART := some "Part One"
    DAY_OF_WEEK := some "Saturday"
    SHOOTING := "N"
    Is_Shooting := 0
    HOUR := 10
    Lat := 42
    Long := -71
    OFFENSE_DESCRIPTION := some "LARCENY" }

/-- Witness for the amended claim C9 at a concrete input. -/
theorem C9_witness : 0 ≤ c9w_rec.HOUR ∧ c9w_rec.HOUR ≤ 23 :=
  C9_hour_range c9w_raw [c9w_rec] (by decide) rfl c9w_rec (by decide)

end Crime

deriving instance DecidableEq for Except

namespace Movie

/-- Claim C6 (confirmed): on every successful load, each of the three
list-valued columns whose first observed value was plain text has every value
reinterpreted as a true sequence; and the decoder sends the rendering of
A and B to the two-element sequence and the empty-list text to the empty
sequence. -/
theorem C6_list_decoding (f : UploadedFile) (df0 df : Df)
    (h0 : read_file f = .ok df0) (h1 : decodeCols df0 = .ok df) :
    load_data f = .ok df ∧
    evalListLiteral (pyReprList ["A", "B"]) = some ["A", "B"] ∧
    evalListLiteral (pyReprList []) = some [] ∧
    List.Forall₂ (fun c0 c => c.name = c0.name ∧
      (c0.name ∈ list_col_names → (∃ s r, c0.cells = MVal.vStr s :: r) →
        ∀ v ∈ c.cells, ∃ l, v = MVal.vList l)) df0 df := by
  refine ⟨?_, by decide, by decide, ?_⟩
  · unfold load_data
    rw [h0]
    exact h1
  · exact List.Forall₂.imp (fun _ _ h => ⟨h.1, h.2.2⟩) (decodeCols_ok df0 df h1)

/-- Input for the C6 witness: a delimited movie file whose castList column
holds the two texts rendering the list of A and B and the empty list. -/
def c6w_file : UploadedFile :=
  { name := "movies.csv"
    content := .csvText (some [{ name := "castList", cells := [pyReprList ["A", "B"], pyReprList []] }]) }

/-- The parsed form of c6w_file before decoding. -/
def c6w_df0 : Df :=
  [{ name := "castList", cells := [MVal.vStr (pyReprList ["A", "B"]), MVal.vStr (pyReprList [])] }]

/-- The dataset the movie loader returns on c6w_file. -/
def c6w_df : Df :=
  [{ name := "castList", cells := [MVal.vList ["A", "B"], MVal.vList []] }]

/-- Witness for claim C6 at a concrete input. -/
theorem C6_witness :
    load_data c6w_file = .ok c6w_df ∧
    evalListLiteral (pyReprList ["A", "B"]) = some ["A", "B"] ∧
    evalListLiteral (pyReprList []) = some [] ∧
    List.Forall₂ (fun c0 c => c.name = c0.name ∧
      (c0.name ∈ list_col_names → (∃ s r, c0.cells = MVal.vStr s :: r) →
        ∀ v ∈ c.cells, ∃ l, v = MVal.vList l)) c6w_df0 c6w_df :=
  C6_list_decoding c6w_file c6w_df0 c6w_df (by decide) (by decide)

/-- Claim C10 (confirmed): a well-formed delimited movie file that parses to
zero rows while containing one of the three list-valued columns makes the
loader fail with the index error raised by inspecting the column's first
value, instead of returning an empty dataset. -/
theorem C10_empty_rows (f : UploadedFile) (t : List CsvCol)
    (hn : endsWithCsv f.name = true) (hc : f.content = .csvText (some t))
    (hempty : ∀ col ∈ t, col.cells = ([] : List String))
    (hlist : ∃ col ∈ t, col.name ∈ list_col_names) :
    load_data f = .error .indexErr := by
  have hread : read_file f = .ok (pd_read_csv t) := by
    unfold read_file
    rw [if_pos hn, hc]
  have hdec : ∀ t2 : List CsvCol, (∀ col ∈ t2, col.cells = ([] : List String)) →
      (∃ col ∈ t2, col.name ∈ list_col_names) →
      decodeCols (pd_read_csv t2) = .error .indexErr := by
    intro t2
    induction t2 with
    | nil =>
      intro _ hl
      simp at hl
    | cons c cs ih =>
      intro hempty2 hlist2
      have hcc : c.cells = [] := hempty2 c (List.mem_cons_self _ _)
      by_cases hname : c.name ∈ list_col_names
      · have hstep : decodeStep { name := c.name, cells := infer_cells c.cells } =
            .error .indexErr := by
          simp [decodeStep, hcc, hname, infer_cells]
        simp [pd_read_csv, decodeCols, hstep]
      · have hstep : decodeStep { name := c.name, cells := infer_cells c.cells } =
            .ok { name := c.name, cells := infer_cells c.cells } := by
          simp [decodeStep, hname]
        obtain ⟨col, hcol, hcoln⟩ := hlist2
        rcases List.mem_cons.mp hcol with h1 | h2
        · exact absurd (h1 ▸ hcoln) hname
        · have hrec := ih (fun d hd => hempty2 d (List.mem_cons_of_mem _ hd)) ⟨col, h2, hcoln⟩
          simp only [pd_read_csv, List.map_cons] at hrec ⊢
          simp [decodeCols, hstep, hrec]
  unfold load_data
  rw [hread]
  exact hdec t hempty hlist

/-- Input for the C10 witness: a header-only delimited file with a title and
a castList column and no data rows. -/
def c10w_file : UploadedFile :=
  { name := "movies.csv"
    content := .csvText (some [{ name := "title", cells := [] }, { name := "castList", cells := [] }]) }

/-- Witness for claim C10 at a concrete input. -/
theorem C10_witness : load_data c10w_file = .error .indexErr :=
  C10_empty_rows c10w_file
    [{ name := "title", cells := [] }, { name := "castList", cells := [] }]
    (by decide) rfl (by decide) (by decide)

end Movie

namespace Movie

/-- Input refuting claim C5 as stated: a JSON movie file whose castList
column holds a true array in the first record and, in the second record, a
text value that is not a valid literal-sequence rendering (an unbalanced
bracket). -/
def c5cex_file : UploadedFile :=
  { name := "movies.json"
    content := .jsonText (some [{ name := "castList", cells := [JVal.jarr ["A"], JVal.jstr "[bad"] }]) }

/-- The dataset the movie loader returns on c5cex_file: the malformed text is
silently retained. -/
def c5cex_df : Df :=
  [{ name := "castList", cells := [MVal.vList ["A"], MVal.vStr "[bad"] }]

/-- Claim C5 (counterexample): the claim says any text value in a list-valued
column that is not a valid literal-sequence rendering makes the load fail
with a decode error.  Because the decode pass only runs when the column's
first observed value is plain text, this input — whose castList column starts
with a true array — loads successfully, retaining the malformed text value
instead of failing. -/
theorem C5_counterexample :
    load_data c5cex_file = .ok c5cex_df ∧ evalListLiteral "[bad" = none :=
  ⟨by decide, by decide⟩

/-- Claim C5 (amended): malformed content for the parser the file name
selects fails with a parse error; a text value that is not a valid
literal-sequence rendering fails the load with a decode error provided the
decode pass runs on its column — the column is one of the three list-valued
ones and its first observed value is plain text (with the three list-valued
columns non-empty, so no index error preempts) — while a column whose first
value is already a sequence is left unchanged, malformed text included; and a
successful load drops no rows: every column keeps its cell count. -/
theorem C5_fail_fast :
    (∀ f : UploadedFile, endsWithCsv f.name = true → f.content = .csvText none →
      load_data f = .error .parseErr) ∧
    (∀ f : UploadedFile, endsWithCsv f.name = false → f.content = .jsonText none →
      load_data f = .error .parseErr) ∧
    (∀ f df0, read_file f = .ok df0 →
      (∀ c ∈ df0, c.name ∈ list_col_names → c.cells ≠ []) →
      (∃ c ∈ df0, c.name ∈ list_col_names ∧ (∃ s r, c.cells = MVal.vStr s :: r) ∧
        ∃ s2, MVal.vStr s2 ∈ c.cells ∧ evalListLiteral s2 = none) →
      load_data f = .error .decodeErr) ∧
    (∀ f df0 df, read_file f = .ok df0 → load_data f = .ok df →
      List.Forall₂ (fun c0 c => c.cells.length = c0.cells.length) df0 df) := by
  refine ⟨?_, ?_, ?_, ?_⟩
  · intro f hn hc
    unfold load_data read_file
    rw [if_pos hn, hc]
  · intro f hn hc
    unfold load_data read_file
    rw [if_neg (by simp [hn]), hc]
  · intro f df0 h0 hne hbad
    obtain ⟨c, hcmem, hcn, hfirst, hbadcell⟩ := hbad
    obtain ⟨e, he⟩ := decodeStep_error_of_bad c hcn hfirst hbadcell
    have hnotok := decodeCols_not_ok_of_mem c e he df0 hcmem
    rcases decodeCols_ok_or_decodeErr df0 hne with ⟨df2, hdf2⟩ | herr
    · exact absurd hdf2 (hnotok df2)
    · unfold load_data
      rw [h0]
      exact herr
  · intro f df0 df h0 hload
    have hdec : decodeCols df0 = .ok df := by
      unfold load_data at hload
      rw [h0] at hload
      exact hload
    exact List.Forall₂.imp (fun _ _ h => h.2.1) (decodeCols_ok df0 df hdec)

/-- Input for the C5 witness, parse-error part: a malformed delimited file. -/
def c5w_file1 : UploadedFile :=
  { name := "broken.csv", content := .csvText none }

/-- Input for the C5 witness, decode-error part: a JSON file whose castList
column is textual and malformed. -/
def c5w_file2 : UploadedFile :=
  { name := "movies.json"
    content := .jsonText (some [{ name := "castList", cells := [JVal.jstr "[bad"] }]) }

/-- The parsed form of c5w_file2 before decoding. -/
def c5w_df0 : Df :=
  [{ name := "castList", cells := [MVal.vStr "[bad"] }]

/-- Witness for the amended claim C5 at concrete inputs: the malformed
delimited file fails with a parse error and the malformed textual list cell
fails with a decode error. -/
theorem C5_witness :
    load_data c5w_file1 = .error .parseErr ∧ load_data c5w_file2 = .error .decodeErr := by
  constructor
  · exact C5_fail_fast.1 c5w_file1 (by decide) rfl
  · exact C5_fail_fast.2.2.1 c5w_file2 c5w_df0 (by decide) (by decide)
      ⟨{ name := "castList", cells := [MVal.vStr "[bad"] }, by decide, by decide,
        ⟨"[bad", [], by decide⟩, "[bad", by decide, by decide⟩

end Movie

namespace Movie

/-- The spec's notion of a delimited cell holding identical content to a JSON
value: a missing value is the empty cell; a number is a numeric literal the
delimited reader parses back to the same value; a string is itself (non-empty,
since an empty cell reads back as missing); an array of quote-free strings is
its Python textual rendering. -/
def cellRendersJVal (s : String) (v : JVal) : Bool :=
  match v with
  | .jnull => decide (s = "")
  | .jnum q => decide (parseRat s = some q)
  | .jstr t => decide (s = t ∧ t ≠ "")
  | .jarr l => decide (s = pyReprList l ∧ ∀ x ∈ l, squote ∉ x.data)

/-- Identical content, column against column: same name, cell for cell. -/
def colContentEquiv (c : CsvCol) (j : JsonCol) : Prop :=
  c.name = j.name ∧ List.Forall₂ (fun s v => cellRendersJVal s v = true) c.cells j.cells

/-- Identical content, table against table: the spec's relation between a
delimited file and the equivalent JSON array-of-records file for claim C7. -/
def tableContentEquiv (tc : List CsvCol) (tj : List JsonCol) : Prop :=
  List.Forall₂ colContentEquiv tc tj

/-- Is the JSON value a number or missing? -/
def jvalIsNumOrNull : JVal → Bool
  | .jnull => true
  | .jnum _ => true
  | _ => false

/-- Is the JSON value an array? -/
def jvalIsArr : JVal → Bool
  | .jarr _ => true
  | _ => false

/-- Is the JSON value a string or missing? -/
def jvalIsStrOrNull : JVal → Bool
  | .jnull => true
  | .jstr _ => true
  | _ => false

/-- Uniform representation of a column pair: the JSON column is all numbers
or missing; or all arrays and named as a list-valued column; or all strings
or missing with the delimited side not entirely numeric (so both readers
agree on the kind of the column). -/
def uniformCol (c : CsvCol) (j : JsonCol) : Prop :=
  (∀ v ∈ j.cells, jvalIsNumOrNull v = true) ∨
  ((∀ v ∈ j.cells, jvalIsArr v = true) ∧ j.name ∈ list_col_names) ∨
  ((∀ v ∈ j.cells, jvalIsStrOrNull v = true) ∧ c.cells.all numericCell = false)

/-- Uniform representation for every column pair of the two tables. -/
def uniformTable (tc : List CsvCol) (tj : List JsonCol) : Prop :=
  List.Forall₂ uniformCol tc tj

theorem infer_numeric (cs : List String) (js : List JVal)
    (hF : List.Forall₂ (fun s v => cellRendersJVal s v = true) cs js)
    (hU : ∀ v ∈ js, jvalIsNumOrNull v = true) :
    cs.all numericCell = true ∧
    cs.map (fun s => match parseRat s with
        | some q => MVal.vNum q
        | none => MVal.vNull)
      = js.map jval_to_mval := by
  induction hF with
  | nil => exact ⟨rfl, rfl⟩
  | cons hcell hF2 ih =>
    rename_i s v cs2 js2
    obtain ⟨hall2, hmap2⟩ := ih (fun w hw => hU w (List.mem_cons_of_mem _ hw))
    have hv := hU v (List.mem_cons_self _ _)
    cases v with
    | jnull =>
      have hs : s = "" := of_decide_eq_true hcell
      subst hs
      refine ⟨?_, ?_⟩
      · simp [List.all_cons, numericCell, hall2]
      · simp [List.map_cons, hmap2, jval_to_mval, parseRat_empty]
    | jnum q =>
      have hp : parseRat s = some q := of_decide_eq_true hcell
      refine ⟨?_, ?_⟩
      · simp [List.all_cons, numericCell, hp, hall2]
      · simp [List.map_cons, hmap2, jval_to_mval, hp]
    | jstr t => simp [jvalIsNumOrNull] at hv
    | jarr l => simp [jvalIsNumOrNull] at hv

theorem infer_string (cs : List String) (js : List JVal)
    (hF : List.Forall₂ (fun s v => cellRendersJVal s v = true) cs js)
    (hU : ∀ v ∈ js, jvalIsStrOrNull v = true) :
    cs.map (fun s => if s == "" then MVal.vNull else MVal.vStr s) = js.map jval_to_mval := by
  induction hF with
  | nil => rfl
  | cons hcell hF2 ih =>
    rename_i s v cs2 js2
    have hmap2 := ih (fun w hw => hU w (List.mem_cons_of_mem _ hw))
    have hv := hU v (List.mem_cons_self _ _)
    cases v with
    | jnull =>
      have hs : s = "" := of_decide_eq_true hcell
      subst hs
      simp only [List.map_cons, hmap2]
      rfl
    | jstr t =>
      obtain ⟨hst, htne⟩ := of_decide_eq_true hcell
      subst hst
      have hbe : (s == "") = false := by
        simp [htne]
      simp only [List.map_cons, hmap2, hbe, Bool.false_eq_true, if_false]
      rfl
    | jnum q => simp [jvalIsStrOrNull] at hv
    | jarr l => simp [jvalIsStrOrNull] at hv

theorem arr_content (cs : List String) (js : List JVal)
    (hF : List.Forall₂ (fun s v => cellRendersJVal s v = true) cs js)
    (hU : ∀ v ∈ js, jvalIsArr v = true) :
    ∃ ls : List (List String),
      js = ls.map JVal.jarr ∧ cs = ls.map pyReprList ∧
      ∀ l ∈ ls, ∀ x ∈ l, squote ∉ x.data := by
  induction hF with
  | nil => exact ⟨[], rfl, rfl, by simp⟩
  | cons hcell hF2 ih =>
    rename_i s v cs2 js2
    obtain ⟨ls, hjs, hcs, hgood⟩ := ih (fun w hw => hU w (List.mem_cons_of_mem _ hw))
    have hv := hU v (List.mem_cons_self _ _)
    cases v with
    | jarr l =>
      obtain ⟨hsl, hlg⟩ := of_decide_eq_true hcell
      subst hsl
      refine ⟨l :: ls, by rw [hjs]; rfl, by rw [hcs]; rfl, ?_⟩
      intro l2 hl2
      rcases List.mem_cons.mp hl2 with h1 | h2
      · intro x hx
        exact hlg x (h1 ▸ hx)
      · exact hgood l2 h2
    | jnull => simp [jvalIsArr] at hv
    | jnum q => simp [jvalIsArr] at hv
    | jstr t => simp [jvalIsArr] at hv

theorem decodeCells_repr (ls : List (List String))
    (hgood : ∀ l ∈ ls, ∀ x ∈ l, squote ∉ x.data) :
    decodeCells (ls.map (fun l => MVal.vStr (pyReprList l))) = .ok (ls.map MVal.vList) := by
  induction ls with
  | nil => rfl
  | cons l ls2 ih =>
    have hev := evalListLiteral_pyRepr l (hgood l (List.mem_cons_self _ _))
    have ih2 := ih (fun l2 h2 => hgood l2 (List.mem_cons_of_mem _ h2))
    simp [decodeCells, hev, ih2, Except.map]

theorem map_empty_check (ls : List (List String)) :
    (ls.map pyReprList).map (fun s => if s == "" then MVal.vNull else MVal.vStr s)
      = ls.map (fun l => MVal.vStr (pyReprList l)) := by
  induction ls with
  | nil => rfl
  | cons l ls2 ih =>
    have hne : (pyReprList l == "") = false := by
      simp [pyReprList_ne_empty l]
    simp only [List.map_cons, hne, Bool.false_eq_true, if_false, ih]

theorem infer_repr (l0 : List String) (ls2 : List (List String)) :
    infer_cells ((l0 :: ls2).map pyReprList)
      = (l0 :: ls2).map (fun l => MVal.vStr (pyReprList l)) := by
  have hnc : numericCell (pyReprList l0) = false := by
    unfold numericCell
    rw [parseRat_pyRepr]
    simp [pyReprList_ne_empty l0]
  have hall : ((l0 :: ls2).map pyReprList).all numericCell = false := by
    simp [List.all_cons, hnc]
  unfold infer_cells
  rw [hall]
  simp only [Bool.false_eq_true, if_false]
  exact map_empty_check (l0 :: ls2)

end Movie

namespace Movie

theorem decode_col_equiv (c : CsvCol) (j : JsonCol)
    (he : colContentEquiv c j) (hu : uniformCol c j) :
    decodeStep { name := c.name, cells := infer_cells c.cells }
      = decodeStep { name := j.name, cells := j.cells.map jval_to_mval } := by
  obtain ⟨hname, hF⟩ := he
  rcases hu with hnum | ⟨harr, hjn⟩ | ⟨hstr, hnotnum⟩
  · obtain ⟨hall, hmap⟩ := infer_numeric c.cells j.cells hF hnum
    have hcells : infer_cells c.cells = j.cells.map jval_to_mval := by
      unfold infer_cells
      rw [if_pos hall]
      exact hmap
    rw [hname, hcells]
  · obtain ⟨ls, hjs, hcs, hgood⟩ := arr_content c.cells j.cells hF harr
    cases ls with
    | nil =>
      have h1 : infer_cells c.cells = [] := by
        rw [hcs]
        rfl
      have h2 : j.cells.map jval_to_mval = [] := by
        rw [hjs]
        rfl
      rw [hname, h1, h2]
    | cons l0 ls2 =>
      have hinfer : infer_cells c.cells
          = (l0 :: ls2).map (fun l => MVal.vStr (pyReprList l)) := by
        rw [hcs]
        exact infer_repr l0 ls2
      have hjcells : j.cells.map jval_to_mval = (l0 :: ls2).map MVal.vList := by
        rw [hjs, List.map_map]
        rfl
      have hcn : c.name ∈ list_col_names := hname ▸ hjn
      have hcsv : decodeStep { name := c.name, cells := infer_cells c.cells }
          = .ok { name := c.name, cells := (l0 :: ls2).map MVal.vList } := by
        rw [hinfer]
        unfold decodeStep
        rw [if_pos hcn]
        simp only [List.map_cons]
        rw [show decodeCells (MVal.vStr (pyReprList l0) ::
            ls2.map (fun l => MVal.vStr (pyReprList l)))
          = .ok ((l0 :: ls2).map MVal.vList) from by
            have := decodeCells_repr (l0 :: ls2) hgood
            simpa using this]
        rfl
      have hjson : decodeStep { name := j.name, cells := j.cells.map jval_to_mval }
          = .ok { name := j.name, cells := (l0 :: ls2).map MVal.vList } := by
        rw [hjcells]
        unfold decodeStep
        rw [if_pos hjn]
        rfl
      rw [hcsv, hjson, hname]
  · have hmap := infer_string c.cells j.cells hF hstr
    have hcells : infer_cells c.cells = j.cells.map jval_to_mval := by
      unfold infer_cells
      rw [hnotnum]
      simp only [Bool.false_eq_true, if_false]
      exact hmap
    rw [hname, hcells]

/-- Claim C7 (amended): given a delimited file and the JSON array-of-records
file with identical content in which every column is uniformly represented
(all numbers-or-missing, all arrays in a list-valued column, or all
strings-or-missing with the delimited side not entirely numeric), the two
loads — dispatched by the file-name suffix — produce identical datasets. -/
theorem C7_format_equivalence (nameC nameJ : String) (tc : List CsvCol) (tj : List JsonCol)
    (hC : endsWithCsv nameC = true) (hJ : endsWithCsv nameJ = false)
    (heq : tableContentEquiv tc tj) (hu : uniformTable tc tj) :
    load_data { name := nameC, content := .csvText (some tc) }
      = load_data { name := nameJ, content := .jsonText (some tj) } := by
  have h1 : read_file { name := nameC, content := .csvText (some tc) }
      = .ok (pd_read_csv tc) := by
    unfold read_file
    rw [if_pos hC]
  have h2 : read_file { name := nameJ, content := .jsonText (some tj) }
      = .ok (json_to_df tj) := by
    unfold read_file
    rw [if_neg (by simp [hJ])]
  unfold load_data
  rw [h1, h2]
  show decodeCols (pd_read_csv tc) = decodeCols (json_to_df tj)
  clear h1 h2 hC hJ
  revert hu
  induction heq with
  | nil =>
    intro _
    rfl
  | cons hcol htail ih =>
    intro hu
    rename_i c j tcs tjs
    cases hu with
    | cons hucol hutail =>
      have hstep := decode_col_equiv c j hcol hucol
      have ihr := ih hutail
      show decodeCols ({ name := c.name, cells := infer_cells c.cells } :: pd_read_csv tcs)
        = decodeCols ({ name := j.name, cells := j.cells.map jval_to_mval } :: json_to_df tjs)
      simp only [decodeCols]
      rw [hstep, ihr]

end Movie

namespace Movie

/-- The delimited side of the C7 counterexample: a castList column with two
textual renderings of lists. -/
def c7cex_csv : List CsvCol :=
  [{ name := "castList", cells := [pyReprList ["A"], pyReprList ["B"]] }]

/-- The JSON side of the C7 counterexample: the same content, with the first
value a true array and the second the same text as a JSON string. -/
def c7cex_json : List JsonCol :=
  [{ name := "castList", cells := [JVal.jarr ["A"], JVal.jstr (pyReprList ["B"])] }]

/-- Claim C7 (counterexample): the two files hold identical content cell for
cell, and the name dispatch routes them to the two parsers, yet the loads
differ: the delimited load decodes both cells (its column is entirely
textual), while the JSON load sees an array as the first value, skips the
decode, and keeps the second cell as text. -/
theorem C7_counterexample :
    tableContentEquiv c7cex_csv c7cex_json ∧
    endsWithCsv "m.csv" = true ∧ endsWithCsv "m.json" = false ∧
    load_data { name := "m.csv", content := .csvText (some c7cex_csv) }
      ≠ load_data { name := "m.json", content := .jsonText (some c7cex_json) } := by
  refine ⟨?_, by decide, by decide, by decide⟩
  refine List.Forall₂.cons ⟨rfl, ?_⟩ List.Forall₂.nil
  refine List.Forall₂.cons (by decide) (List.Forall₂.cons ?_ List.Forall₂.nil)
  show decide (pyReprList ["B"] = pyReprList ["B"] ∧ pyReprList ["B"] ≠ "") = true
  exact decide_eq_true ⟨rfl, pyReprList_ne_empty _⟩

/-- The delimited side of the C7 witness: a title, a year and a castList
column. -/
def c7w_csv : List CsvCol :=
  [{ name := "title", cells := ["Jaws", "Up"] },
   { name := "year", cells := ["1975", "2009"] },
   { name := "castList", cells := [pyReprList ["A", "B"], pyReprList []] }]

/-- The JSON side of the C7 witness, with identical content. -/
def c7w_json : List JsonCol :=
  [{ name := "title", cells := [JVal.jstr "Jaws", JVal.jstr "Up"] },
   { name := "year", cells := [JVal.jnum 1975, JVal.jnum 2009] },
   { name := "castList", cells := [JVal.jarr ["A", "B"], JVal.jarr []] }]

/-- Witness for the amended claim C7 at a concrete pair of files. -/
theorem C7_witness :
    load_data { name := "movies.csv", content := .csvText (some c7w_csv) }
      = load_data { name := "movies.json", content := .jsonText (some c7w_json) } := by
  refine C7_format_equivalence "movies.csv" "movies.json" c7w_csv c7w_json
    (by decide) (by decide) ?_ ?_
  · refine List.Forall₂.cons ⟨rfl, ?_⟩ (List.Forall₂.cons ⟨rfl, ?_⟩
      (List.Forall₂.cons ⟨rfl, ?_⟩ List.Forall₂.nil))
    · exact List.Forall₂.cons (by decide) (List.Forall₂.cons (by decide) List.Forall₂.nil)
    · exact List.Forall₂.cons (by decide) (List.Forall₂.cons (by decide) List.Forall₂.nil)
    · exact List.Forall₂.cons (by decide) (List.Forall₂.cons (by decide) List.Forall₂.nil)
  · refine List.Forall₂.cons ?_ (List.Forall₂.cons ?_
      (List.Forall₂.cons ?_ List.Forall₂.nil))
    · exact Or.inr (Or.inr ⟨by decide, by decide⟩)
    · exact Or.inl (by decide)
    · exact Or.inr (Or.inl ⟨by decide, by decide⟩)

end Movie
